import Mathlib

/-!
Shallow embedding of the aggregation core of the `survey-summarizer` repository
(`src/helpers/extract_data.py` and `src/southeast_pa_funding_options.py`).

Modelling conventions:
* A pandas cell is `Option String`: `none` is an absent value (`None` / `NaN`),
  `some s` is the string `s`.  `Series.dropna` is `List.filterMap id`.
* A pandas `DataFrame` read from CSV is a `Table`: a list of column names and a
  list of rows, each row a list of cells addressed positionally.
* Python dictionaries that accumulate counts are insertion-ordered association
  lists (`List (String × Nat)`); `bump` is the idiom
  `if k not in d: d[k] = 0; d[k] += 1`.
* Python's `sorted` (a stable ascending sort by a key) and pandas'
  `value_counts` descending sort are embedded with `List.insertionSort`, which
  is stable and structurally recursive; a stable sort with respect to a given
  total preorder is unique, so this is the same list `sorted` produces.  For
  `value_counts` the tie order among equal counts is not pinned down by pandas;
  the embedding uses the stable descending order, and no theorem below about
  `count_the_values` depends on the tie order.
* Python's `str.split(";")` is `splitSemi`: it cuts at every `;` and keeps
  empty pieces, so `"a;".split(";") == ["a", ""]` and `"".split(";") == [""]`.
-/

/-- A cell of the raw table: absent (`None`/`NaN`) or a string. -/
abbrev Cell := Option String

/-- Helper for `splitSemi`: walk the characters, cutting at every `;`. -/
def splitSemiAux : List Char → List Char → List String
  | [], acc => [String.mk acc.reverse]
  | c :: rest, acc =>
    if c = ';' then String.mk acc.reverse :: splitSemiAux rest []
    else splitSemiAux rest (c :: acc)

/-- Python's `s.split(";")`: split at every semicolon, keeping empty pieces. -/
def splitSemi (s : String) : List String :=
  splitSemiAux s.data []

/-- One step of the Python counting idiom used in `count_semicolon_list`:
`if item not in results: results[item] = 0` followed by `results[item] += 1`,
on an insertion-ordered association list. -/
def bump (m : List (String × Nat)) (t : String) : List (String × Nat) :=
  if m.any (fun p => p.1 == t) then
    m.map (fun p => if p.1 == t then (p.1, p.2 + 1) else p)
  else m ++ [(t, 1)]

/-- Occurrence counts of the tokens of `ts`, keys in first-insertion order
(the iteration order of a Python dict built by `bump`). -/
def buildCounts (ts : List String) : List (String × Nat) :=
  ts.foldl bump []

/-- The token stream of `count_semicolon_list`: every non-absent entry is split
on `;`, in row order; absent entries contribute nothing. -/
def allTokens (cells : List Cell) : List String :=
  (cells.filterMap id).flatMap splitSemi

/-- Python's `results.get(x)` / `results[x]` on the association list
(`0` when the key is missing; the sources only look up present keys). -/
def lookupCount (m : List (String × Nat)) (t : String) : Nat :=
  match m.find? (fun p => p.1 == t) with
  | some p => p.2
  | none => 0

/-- The `results` dict of `count_semicolon_list` (extract_data.py lines
15-21): occurrence counts of the `;`-separated items of all non-absent
entries, keys in first-insertion order. -/
def semiResults (cells : List Cell) : List (String × Nat) :=
  buildCounts (allTokens cells)

/-- `sorted(results, key=results.get)`: the keys of the dict (iterated in
insertion order), stably sorted by ascending count. -/
def semiSortedKeys (cells : List Cell) : List String :=
  List.insertionSort
    (fun a b =>
      lookupCount (semiResults cells) a ≤ lookupCount (semiResults cells) b)
    ((semiResults cells).map (fun p => p.1))

/-- `count_semicolon_list` (extract_data.py lines 4-25): count the occurrences
of each `;`-separated item over the non-absent entries, then list the items by
`reversed(sorted(results, key=results.get))` with their counts
(line 23: `[[x, results[x]] for x in reversed(sorted(results, key=results.get))]`). -/
def count_semicolon_list (cells : List Cell) : List (String × Nat) :=
  (semiSortedKeys cells).reverse.map
    (fun k => (k, lookupCount (semiResults cells) k))

/-- `count_the_values` (extract_data.py lines 28-38):
`data_series.value_counts(dropna=True)` — occurrence counts of the distinct
non-absent values, sorted by descending count. -/
def count_the_values (cells : List Cell) : List (String × Nat) :=
  List.insertionSort (fun a b => b.2 ≤ a.2) (buildCounts (cells.filterMap id))

/-- `get_freeform_text` (extract_data.py lines 41-52):
`data_series.dropna()` — scan the rows, keeping every non-absent entry. -/
def get_freeform_text : List Cell → List String
  | [] => []
  | none :: rest => get_freeform_text rest
  | some s :: rest => s :: get_freeform_text rest

/-- A tabular data frame: column names plus rows of positionally addressed
cells (rows shorter than the header read as absent beyond their end, matching
`read_csv` padding missing trailing fields with `NaN`). -/
structure Table where
  header : List String
  rows : List (List Cell)

/-- The cells of column `c`, extracted positionally at the index the header
gives to `c`. -/
def Table.column (t : Table) (c : String) : List Cell :=
  t.rows.map (fun r => r.getD (t.header.indexOf c) none)

/-- `df[c]`: `some` column when the name exists, `none` for a `KeyError`. -/
def Table.col (t : Table) (c : String) : Option (List Cell) :=
  if t.header.contains c then some (t.column c) else none

/-- The Python dict comprehension `{opt: 0 for opt in list_of_options}` as run
by the source's loop `for possible_option in list_of_options:
option_results[possible_option] = 0`. -/
def initOptions (options : List String) : List (String × Nat) :=
  options.foldl
    (fun m opt =>
      if m.any (fun p => p.1 == opt) then
        m.map (fun p => if p.1 == opt then (p.1, 0) else p)
      else m ++ [(opt, 0)]) []

/-- The source's inner loop over one `count_df` row: for every
`possible_option` equal to `row["value"]`, set
`option_results[possible_option] = row["count"]`. -/
def fillRow (options : List String) (m : List (String × Nat))
    (row : String × Nat) : List (String × Nat) :=
  if options.contains row.1 then
    m.map (fun p => if p.1 == row.1 then (p.1, row.2) else p)
  else m

/-- One iteration of the first loop of
`count_responses_to_multi_entry_question`: store
`count_the_values(raw_df[col])` in the `question_results` dict under key
`col` (a missing column is a `KeyError`, embedded as `Except.error`). -/
def qrStep (raw : Table) (acc : List (String × List (String × Nat)))
    (col : String) : Except String (List (String × List (String × Nat))) :=
  match raw.col col with
  | some series =>
    let df := count_the_values series
    if acc.any (fun p => p.1 == col) then
      pure (acc.map (fun p => if p.1 == col then (p.1, df) else p))
    else pure (acc ++ [(col, df)])
  | none => Except.error col

/-- `count_responses_to_multi_entry_question` (extract_data.py lines 55-103):
per sub-question column, take `count_the_values`, then build one output row
holding, for every allowed option in order, the looked-up count (0 when the
option never occurs).  The first loop stores the per-column tables in the
`question_results` dict via `qrStep`. -/
def count_responses_to_multi_entry_question (raw : Table)
    (cols options : List String) :
    Except String (List (String × List Nat)) := do
  let qr ← cols.foldlM (qrStep raw) []
  pure (qr.map (fun q =>
    (q.1, (q.2.foldl (fillRow options) (initOptions options)).map
      (fun p => p.2))))

/-- The 29-name schema list (southeast_pa_funding_options.py lines 9-39). -/
def survey_form : List String := [
  "Timestamp",
  "What is your view of the transportation network in southeastern Pennsylvania, including  current condition, coverage and services? (Choose as many as apply)",
  "New or extended rail lines",
  "Highway capacity improvements",
  "New roads or road extensions",
  "Improve maintenance, safety and operations of the highway and transit network",
  "Speed up transit / increase service frequency",
  "More trails and bicycle/pedestrian improvements",
  "List any specific projects or improvements that you feel are critical to the region’s future.",
  "Do you support raising state funds across Pennsylvania to pay for transportation needs?",
  "Toll Major Bridges",
  "Tolls on Managed Lanes",
  "Congestion Pricing",
  "Corridor Tolling",
  "Road User Charge",
  "Fees or Tax increases on other non-transportation items",
  "Do you support raising funds at the city or county level in Southeast Pennsylvania to supplement federal and state funds to pay for local transportation needs?",
  "Earned Income Tax",
  "Local Services Tax",
  "Real Estate Transfer Tax",
  "Vehicle Property Tax",
  "Property Tax",
  "Sales Tax",
  "Uber and Lyft fee",
  "Local Gasoline Tax",
  "Do you have other ideas or suggestions about how the region could fund transportation investments?",
  "Is there anything else you would like to share with us regarding the region\x27s transportation and funding?",
  "Who do you represent?: (check all that apply)",
  "Where do you serve?: (check all that apply)"]

/-- The radio-group configuration (lines 42-55): prompt, sub-question columns
(`survey_form` slices), allowed options. -/
def questions : List (String × List String × List String) := [
  ("What kind of improvements, if any, would you like to see to improve the transportation network?",
   ((survey_form.drop 2).take 6,
    ["Lowest priority", "Medium priority", "Highest priority"])),
  (survey_form.getD 9 "",
   ((survey_form.drop 10).take 6,
    ["I oppose this", "I need to learn more", "I support this"])),
  (survey_form.getD 16 "",
   ((survey_form.drop 17).take 8,
    ["I oppose this", "I need to learn more", "I support this"]))]

/-- The freeform text columns (line 57): `[survey_form[8]] + survey_form[25:27]`. -/
def freeform_text : List String :=
  [survey_form.getD 8 ""] ++ (survey_form.drop 25).take 2

/-- The semicolon-delimited columns (line 60): `[survey_form[1]] + survey_form[27:]`. -/
def semicolon_lists : List String :=
  [survey_form.getD 1 ""] ++ survey_form.drop 27

/-- The binary yes/no columns (line 63): `[survey_form[9], survey_form[16]]`. -/
def yes_no : List String :=
  [survey_form.getD 9 "", survey_form.getD 16 ""]

/-- The Crunched Result structure (lines 173-178). -/
structure Crunched where
  multi_radio_questions : List (String × List (String × List Nat))
  yes_no : List (String × List (String × Nat))
  semicolon_lists : List (String × List (String × Nat))
  freeform_text : List (String × List String)

/-- One iteration of a per-column aggregation loop of `crunch_raw_data`:
apply the summarizer `f` to `df[col]` and key the result by the column name
(a missing column is a `KeyError`, embedded as `Except.error`). -/
def colStep {β : Type} (f : List Cell → β) (df : Table) (col : String) :
    Except String (String × β) :=
  match df.col col with
  | some s => pure (col, f s)
  | none => Except.error col

/-- The aggregation loops of `crunch_raw_data` (lines 180-196), run on the
table after its header has been overwritten with `survey_form`. -/
def aggregate_renamed (df : Table) : Except String Crunched := do
  let yn ← yes_no.mapM (colStep count_the_values df)
  let sc ← semicolon_lists.mapM (colStep count_semicolon_list df)
  let ff ← freeform_text.mapM (colStep get_freeform_text df)
  let mr ← questions.mapM (fun q =>
    (count_responses_to_multi_entry_question df q.2.1 q.2.2).map
      (fun t => (q.1, t)))
  pure ⟨mr, yn, sc, ff⟩

/-- `crunch_raw_data` (lines 168-196): the assignment
`df.columns = survey_form` raises `ValueError: Length mismatch` when the
read table's column count differs from the schema list's length, before any
aggregation loop runs; otherwise the header is overwritten positionally and
the four aggregation loops produce the Crunched Result. -/
def crunch_raw_data (t : Table) : Except String Crunched :=
  if t.header.length ≠ survey_form.length then
    Except.error "Length mismatch"
  else aggregate_renamed ⟨survey_form, t.rows⟩

/-! ### Counting association lists: invariants of `bump` / `buildCounts` -/

/-- The keys of a counting association list, in insertion order. -/
def keysOf (m : List (String × Nat)) : List String :=
  m.map (fun p => p.1)

/-- `m` is the counting dict of the token list `ts`: keys are distinct, each
entry stores the occurrence count of its key in `ts`, and the keys are
exactly the values occurring in `ts`. -/
def CountsFor (m : List (String × Nat)) (ts : List String) : Prop :=
  (keysOf m).Nodup ∧ (∀ p ∈ m, p.2 = ts.count p.1) ∧
    (∀ v, v ∈ keysOf m ↔ v ∈ ts)

lemma any_key_iff {β : Type} (m : List (String × β)) (t : String) :
    m.any (fun p => p.1 == t) = true ↔ t ∈ m.map (fun p => p.1) := by
  rw [List.any_eq_true]
  constructor
  · rintro ⟨p, hp, hpt⟩
    have : p.1 = t := by simpa using hpt
    exact this ▸ List.mem_map_of_mem _ hp
  · intro hk
    rcases List.mem_map.mp hk with ⟨p, hp, hpt⟩
    exact ⟨p, hp, by simp [hpt]⟩

lemma countsFor_nil : CountsFor [] [] := by
  refine ⟨by simp [keysOf], by simp, by simp [keysOf]⟩

lemma countsFor_bump {m : List (String × Nat)} {ts : List String} {t : String}
    (h : CountsFor m ts) : CountsFor (bump m t) (ts ++ [t]) := by
  obtain ⟨hnd, hcnt, hmem⟩ := h
  by_cases hk : t ∈ keysOf m
  · have hany : m.any (fun p => p.1 == t) = true := (any_key_iff m t).mpr hk
    have hbump : bump m t =
        m.map (fun p => if p.1 == t then (p.1, p.2 + 1) else p) := by
      simp [bump, hany]
    have hkeys :
        keysOf (m.map (fun p => if p.1 == t then (p.1, p.2 + 1) else p)) =
          keysOf m := by
      unfold keysOf
      rw [List.map_map]
      refine List.map_congr_left (fun p _ => ?_)
      by_cases hp : p.1 = t <;> simp [hp]
    refine ⟨?_, ?_, ?_⟩
    · rw [hbump, hkeys]; exact hnd
    · rw [hbump]
      intro p' hp'
      rcases List.mem_map.mp hp' with ⟨p, hp, rfl⟩
      by_cases hpt : p.1 = t
      · simp only [hpt, beq_self_eq_true, if_true]
        rw [hcnt p hp, hpt]
        simp [List.count_append]
      · have : (p.1 == t) = false := beq_eq_false_iff_ne.mpr hpt
        simp only [this, Bool.false_eq_true, if_false]
        rw [hcnt p hp]
        simp [List.count_append, List.count_cons, hpt]
    · rw [hbump, hkeys]
      intro v
      rw [hmem v]
      constructor
      · intro hv; exact List.mem_append_left _ hv
      · intro hv
        rcases List.mem_append.mp hv with hv | hv
        · exact hv
        · rcases List.mem_singleton.mp hv with rfl
          exact (hmem v).mp hk
  · have hany : m.any (fun p => p.1 == t) = false := by
      rw [← Bool.not_eq_true, any_key_iff]; exact hk
    have hbump : bump m t = m ++ [(t, 1)] := by simp [bump, hany]
    have htts : t ∉ ts := fun hts => hk ((hmem t).mpr hts)
    refine ⟨?_, ?_, ?_⟩
    · rw [hbump]
      unfold keysOf
      rw [List.map_append]
      refine List.Nodup.append hnd (by simp) ?_
      intro v hv hv'
      rcases List.mem_singleton.mp hv' with rfl
      exact hk hv
    · rw [hbump]
      intro p hp
      rcases List.mem_append.mp hp with hp | hp
      · have hpt : p.1 ≠ t := fun he => hk (he ▸ List.mem_map_of_mem _ hp)
        rw [hcnt p hp]
        simp [List.count_append, List.count_cons, hpt]
      · rcases List.mem_singleton.mp hp with rfl
        simp [List.count_append, List.count_eq_zero.mpr htts]
    · intro v
      rw [hbump]
      unfold keysOf
      rw [List.map_append]
      have hkm : (m.map fun p => p.1) = keysOf m := rfl
      rw [hkm, List.mem_append, hmem v, List.mem_append]
      simp

lemma countsFor_foldl (ts' : List String) :
    ∀ (m : List (String × Nat)) (ts : List String),
      CountsFor m ts → CountsFor (ts'.foldl bump m) (ts ++ ts') := by
  induction ts' with
  | nil => intro m ts h; simpa using h
  | cons t rest ih =>
    intro m ts h
    have := ih (bump m t) (ts ++ [t]) (countsFor_bump h)
    simpa [List.append_assoc] using this

lemma buildCounts_countsFor (ts : List String) :
    CountsFor (buildCounts ts) ts := by
  have h := countsFor_foldl ts [] [] countsFor_nil
  simpa [buildCounts] using h

lemma buildCounts_keys_nodup (ts : List String) :
    (keysOf (buildCounts ts)).Nodup := (buildCounts_countsFor ts).1

lemma buildCounts_count_eq {ts : List String} {p : String × Nat}
    (hp : p ∈ buildCounts ts) : p.2 = ts.count p.1 :=
  (buildCounts_countsFor ts).2.1 p hp

lemma buildCounts_mem_keys (ts : List String) (v : String) :
    v ∈ keysOf (buildCounts ts) ↔ v ∈ ts :=
  (buildCounts_countsFor ts).2.2 v

lemma lookupCount_buildCounts (ts : List String) (t : String) :
    lookupCount (buildCounts ts) t = ts.count t := by
  unfold lookupCount
  cases hf : (buildCounts ts).find? (fun p => p.1 == t) with
  | some p =>
    have hpt : p.1 = t := by
      have := List.find?_some hf
      simpa using this
    have hpm : p ∈ buildCounts ts := List.mem_of_find?_eq_some hf
    show p.2 = ts.count t
    rw [buildCounts_count_eq hpm, hpt]
  | none =>
    have hall := List.find?_eq_none.mp hf
    have hkt : t ∉ keysOf (buildCounts ts) := by
      intro hk
      rcases List.mem_map.mp hk with ⟨p, hp, hpt⟩
      exact hall p hp (by simp [hpt])
    have : t ∉ ts := fun hts => hkt ((buildCounts_mem_keys ts t).mpr hts)
    show 0 = ts.count t
    rw [List.count_eq_zero.mpr this]

lemma buildCounts_sum (ts : List String) :
    ((buildCounts ts).map (fun p => p.2)).sum = ts.length := by
  have h := buildCounts_countsFor ts
  have h1 : (buildCounts ts).map (fun p => p.2) =
      (keysOf (buildCounts ts)).map (fun v => ts.count v) := by
    unfold keysOf
    rw [List.map_map]
    exact List.map_congr_left (fun p hp => h.2.1 p hp)
  have hperm : List.Perm (keysOf (buildCounts ts)) ts.dedup := by
    rw [List.perm_ext_iff_of_nodup h.1 ts.nodup_dedup]
    intro v
    rw [h.2.2 v, List.mem_dedup]
  rw [h1, (hperm.map (fun v => ts.count v)).sum_eq,
    ts.sum_map_count_dedup_eq_length]

/-! ### `count_the_values`: characterization -/

lemma count_the_values_perm (cells : List Cell) :
    List.Perm (count_the_values cells) (buildCounts (cells.filterMap id)) :=
  List.perm_insertionSort _ _

lemma count_the_values_spec (cells : List Cell) :
    ((count_the_values cells).map (fun p => p.1)).Nodup
    ∧ (∀ p ∈ count_the_values cells, p.2 = (cells.filterMap id).count p.1)
    ∧ ∀ v, v ∈ (count_the_values cells).map (fun p => p.1) ↔
        v ∈ cells.filterMap id := by
  have hperm := count_the_values_perm cells
  have h := buildCounts_countsFor (cells.filterMap id)
  refine ⟨?_, ?_, ?_⟩
  · have h1 := h.1
    unfold keysOf at h1
    exact ((hperm.map (fun p => p.1)).nodup_iff).mpr h1
  · intro p hp
    exact h.2.1 p (hperm.mem_iff.mp hp)
  · intro v
    rw [(hperm.map (fun p => p.1)).mem_iff]
    exact h.2.2 v

lemma count_the_values_sum (cells : List Cell) :
    ((count_the_values cells).map (fun p => p.2)).sum =
      (cells.filterMap id).length := by
  rw [((count_the_values_perm cells).map (fun p => p.2)).sum_eq,
    buildCounts_sum]

lemma mem_filterMap_id_iff (cells : List Cell) (v : String) :
    v ∈ cells.filterMap id ↔ some v ∈ cells := by
  rw [List.mem_filterMap]
  constructor
  · rintro ⟨a, ha, rfl⟩
    exact ha
  · intro hv
    exact ⟨some v, hv, rfl⟩

/-- C6: Value Counter conservation: for every input sequence of cell values,
the sum of the counts returned by `count_the_values` equals the number of
non-absent input entries, each distinct non-absent value appears in exactly
one output row (the value column has no duplicates and holds exactly the
non-absent values), absent values appear in no row, and an all-absent input
yields an empty table. -/
theorem C6_value_counter_conservation (cells : List Cell) :
    ((count_the_values cells).map (fun p => p.2)).sum =
        (cells.filterMap id).length
    ∧ ((count_the_values cells).map (fun p => p.1)).Nodup
    ∧ (∀ v, v ∈ (count_the_values cells).map (fun p => p.1) ↔ some v ∈ cells)
    ∧ ((∀ c ∈ cells, c = none) → count_the_values cells = []) := by
  have hspec := count_the_values_spec cells
  refine ⟨count_the_values_sum cells, hspec.1, ?_, ?_⟩
  · intro v
    rw [hspec.2.2 v, mem_filterMap_id_iff]
  · intro hall
    have hnil : cells.filterMap id = [] := by
      rw [List.filterMap_eq_nil_iff]
      intro a ha
      rw [hall a ha]
      rfl
    unfold count_the_values
    rw [hnil]
    rfl

/-- C10 (implicit): the rows of the table returned by `count_the_values` are
ordered by non-increasing count (most frequent value first). -/
theorem C10_value_counter_descending (cells : List Cell) :
    (count_the_values cells).Pairwise (fun a b => b.2 ≤ a.2) := by
  unfold count_the_values
  haveI : IsTotal (String × Nat) (fun a b => b.2 ≤ a.2) :=
    ⟨fun a b => Nat.le_total b.2 a.2⟩
  haveI : IsTrans (String × Nat) (fun a b => b.2 ≤ a.2) :=
    ⟨fun _ _ _ h1 h2 => Nat.le_trans h2 h1⟩
  exact List.sorted_insertionSort _ _

/-! ### `count_semicolon_list`: conservation, empty tokens, ordering -/

lemma semiSortedKeys_perm (cells : List Cell) :
    List.Perm (semiSortedKeys cells) ((semiResults cells).map (fun p => p.1)) :=
  List.perm_insertionSort _ _

/-- C4: Semicolon-List Counter conservation: every returned count is the
number of occurrences of that exact token across the semicolon-splits of the
non-absent entries (absent entries contribute no token, by the definition of
`allTokens`), and the counts sum to the total number of tokens. -/
theorem C4_semicolon_conservation (cells : List Cell) :
    (∀ p ∈ count_semicolon_list cells, p.2 = (allTokens cells).count p.1)
    ∧ ((count_semicolon_list cells).map (fun p => p.2)).sum =
        (allTokens cells).length := by
  constructor
  · intro p hp
    unfold count_semicolon_list at hp
    rcases List.mem_map.mp hp with ⟨k, _, rfl⟩
    exact lookupCount_buildCounts (allTokens cells) k
  · have h1 : (count_semicolon_list cells).map (fun p => p.2) =
        (semiSortedKeys cells).reverse.map
          (fun k => (allTokens cells).count k) := by
      unfold count_semicolon_list
      rw [List.map_map]
      exact List.map_congr_left
        (fun k _ => lookupCount_buildCounts (allTokens cells) k)
    have hperm :
        List.Perm ((semiSortedKeys cells).reverse.map
            (fun k => (allTokens cells).count k))
          (((semiResults cells).map (fun p => p.1)).map
            (fun k => (allTokens cells).count k)) :=
      (((semiSortedKeys cells).reverse_perm).trans
        (semiSortedKeys_perm cells)).map _
    have h2 : ((semiResults cells).map (fun p => p.1)).map
        (fun k => (allTokens cells).count k) =
        (semiResults cells).map (fun p => p.2) := by
      rw [List.map_map]
      exact List.map_congr_left
        (fun p hp => (buildCounts_count_eq hp).symm)
    rw [h1, hperm.sum_eq, h2]
    exact buildCounts_sum (allTokens cells)

/-- C8: an empty token produced by splitting a non-absent cell on `;` (for
example from a trailing `;`) appears in the output of `count_semicolon_list`
as a row whose token is the literal empty string, carrying its positive
occurrence count; empty tokens are counted, not filtered out. -/
theorem C8_semicolon_empty_token (cells : List Cell) (s : String)
    (hs : some s ∈ cells) (he : "" ∈ splitSemi s) :
    ("", (allTokens cells).count "") ∈ count_semicolon_list cells
    ∧ 0 < (allTokens cells).count "" := by
  have hmem : "" ∈ allTokens cells := by
    unfold allTokens
    exact List.mem_flatMap.mpr
      ⟨s, List.mem_filterMap.mpr ⟨some s, hs, rfl⟩, he⟩
  constructor
  · unfold count_semicolon_list
    refine List.mem_map.mpr ⟨"", ?_, ?_⟩
    · rw [List.mem_reverse]
      rw [(semiSortedKeys_perm cells).mem_iff]
      have hk := (buildCounts_mem_keys (allTokens cells) "").mpr hmem
      unfold keysOf at hk
      exact hk
    · unfold semiResults
      rw [lookupCount_buildCounts]
  · exact List.count_pos_iff.mpr hmem

/-- A witness for C8: the input `[some "a;"]` has a non-absent cell whose
split on `;` has a trailing empty token, and the output contains the
empty-string row with its count 1. -/
theorem C8_semicolon_empty_token_witness :
    ("", (allTokens [some "a;"]).count "") ∈ count_semicolon_list [some "a;"]
    ∧ 0 < (allTokens [some "a;"]).count "" :=
  C8_semicolon_empty_token [some "a;"] "a;" (by decide) (by decide)

/-- C4 counterexample: on the claim's own example `["a;b", "a", None, "b;c"]`
the counts are a:2, b:2, c:1 (as the claim says), but they sum to 5 — the
total number of tokens — not to 4 as the claim asserts. -/
theorem C4_semicolon_sum_counterexample :
    ((count_semicolon_list [some "a;b", some "a", none, some "b;c"]).map
        (fun p => p.2)).sum ≠ 4 := by
  decide

/-- A witness for C4 at the example `["a;b", "a", None, "b;c"]`:
the row `("a", 2)` of the output carries the token count of `"a"`, and the
counts sum to the total number of tokens, which is 5. -/
theorem C4_semicolon_conservation_witness :
    (("a", 2) ∈ count_semicolon_list [some "a;b", some "a", none, some "b;c"])
    ∧ (("a", 2) : String × Nat).2 =
        (allTokens [some "a;b", some "a", none, some "b;c"]).count
          (("a", 2) : String × Nat).1
    ∧ ((count_semicolon_list [some "a;b", some "a", none, some "b;c"]).map
          (fun p => p.2)).sum =
        (allTokens [some "a;b", some "a", none, some "b;c"]).length
    ∧ (allTokens [some "a;b", some "a", none, some "b;c"]).length = 5 :=
  ⟨by decide,
   (C4_semicolon_conservation _).1 ("a", 2) (by decide),
   (C4_semicolon_conservation _).2,
   by decide⟩

/-- The distinct tokens in first-insertion order: the iteration order of the
`results` dict of `count_semicolon_list`. -/
def insertion_order (cells : List Cell) : List String :=
  (semiResults cells).map (fun p => p.1)

lemma pair_sublist_of_indexOf_lt {l : List String} {x y : String}
    (hy : y ∈ l) (h : l.indexOf x < l.indexOf y) : List.Sublist [x, y] l := by
  induction l with
  | nil => cases hy
  | cons a l ih =>
    by_cases hxa : x = a
    · subst hxa
      have hyx : y ≠ x := by
        intro hyx
        subst hyx
        exact Nat.lt_irrefl _ h
      have hyl : y ∈ l := by
        rcases List.mem_cons.mp hy with rfl | hyl
        · exact absurd rfl hyx
        · exact hyl
      exact List.Sublist.cons₂ x (List.singleton_sublist.mpr hyl)
    · have hya : y ≠ a := by
        intro hya
        subst hya
        rw [List.indexOf_cons_self] at h
        exact Nat.not_lt_zero _ h
      have hyl : y ∈ l := by
        rcases List.mem_cons.mp hy with rfl | hyl
        · exact absurd rfl hya
        · exact hyl
      rw [List.indexOf_cons_ne _ (Ne.symm hxa),
        List.indexOf_cons_ne _ (Ne.symm hya)] at h
      exact List.Sublist.cons a (ih hyl (Nat.succ_lt_succ_iff.mp h))

lemma indexOf_lt_of_pair_sublist {l : List String} {x y : String}
    (hnd : l.Nodup) (hxy : x ≠ y) (h : List.Sublist [x, y] l) :
    l.indexOf x < l.indexOf y := by
  induction l with
  | nil => cases h.subset (List.mem_cons_self x [y])
  | cons a l ih =>
    cases h with
    | cons _ h' =>
      have hal : a ∉ l := (List.nodup_cons.mp hnd).1
      have hnd' : l.Nodup := (List.nodup_cons.mp hnd).2
      have hxl : x ∈ l := h'.subset (by simp)
      have hyl : y ∈ l := h'.subset (by simp)
      have hxa : x ≠ a := fun he => hal (he ▸ hxl)
      have hya : y ≠ a := fun he => hal (he ▸ hyl)
      rw [List.indexOf_cons_ne _ (Ne.symm hxa),
        List.indexOf_cons_ne _ (Ne.symm hya)]
      exact Nat.succ_lt_succ (ih hnd' h')
    | cons₂ _ h' =>
      rw [List.indexOf_cons_self, List.indexOf_cons_ne _ hxy]
      exact Nat.succ_pos _

/-- The stable ascending sort of a duplicate-free list `K` by a key `f` is
pairwise ordered by: strictly smaller key, or equal key and smaller position
in `K` (stability). -/
lemma insertionSort_rank_pairwise (f : String → Nat) (K : List String)
    (hnd : K.Nodup) :
    (List.insertionSort (fun a b => f a ≤ f b) K).Pairwise
      (fun a b => f a < f b ∨ (f a = f b ∧ K.indexOf a < K.indexOf b)) := by
  have hperm := List.perm_insertionSort (fun a b => f a ≤ f b) K
  have hsortnd : (List.insertionSort (fun a b => f a ≤ f b) K).Nodup :=
    hperm.nodup_iff.mpr hnd
  have hsorted : (List.insertionSort (fun a b => f a ≤ f b) K).Pairwise
      (fun a b => f a ≤ f b) := by
    haveI : IsTotal String (fun a b => f a ≤ f b) :=
      ⟨fun a b => Nat.le_total _ _⟩
    haveI : IsTrans String (fun a b => f a ≤ f b) :=
      ⟨fun _ _ _ h1 h2 => Nat.le_trans h1 h2⟩
    exact List.sorted_insertionSort _ _
  set S := List.insertionSort (fun a b => f a ≤ f b) K with hS
  rw [List.pairwise_iff_getElem] at hsorted ⊢
  intro i j hi hj hij
  have hle := hsorted i j hi hj hij
  have hne : S[i] ≠ S[j] :=
    fun he => Nat.ne_of_lt hij (hsortnd.getElem_inj_iff.mp he)
  rcases Nat.lt_or_ge (f S[i]) (f S[j]) with hlt | hge
  · exact Or.inl hlt
  · have heq : f S[i] = f S[j] := Nat.le_antisymm hle hge
    refine Or.inr ⟨heq, ?_⟩
    have himem : S[i] ∈ K := hperm.mem_iff.mp (List.getElem_mem hi)
    have hjmem : S[j] ∈ K := hperm.mem_iff.mp (List.getElem_mem hj)
    rcases Nat.lt_trichotomy (K.indexOf S[i]) (K.indexOf S[j]) with h | h | h
    · exact h
    · exact absurd ((List.indexOf_inj himem hjmem).mp h) hne
    · exfalso
      have hsub : List.Sublist [S[j], S[i]] K := pair_sublist_of_indexOf_lt himem h
      have hrel : f S[j] ≤ f S[i] := Nat.le_of_eq heq.symm
      have hsub' : List.Sublist [S[j], S[i]] S :=
        List.pair_sublist_insertionSort hrel hsub
      have hidx : S.indexOf S[j] < S.indexOf S[i] :=
        indexOf_lt_of_pair_sublist hsortnd (Ne.symm hne) hsub'
      rw [List.indexOf_getElem hsortnd i hi,
        List.indexOf_getElem hsortnd j hj] at hidx
      exact Nat.lt_irrefl _ (Nat.lt_trans hij hidx)

/-- C5: the rows of `count_semicolon_list` are sorted by descending count;
among rows with equal count, the order is the reverse of the order that the
stable ascending sort of the distinct tokens by their counts produces, i.e.
the reverse of first-insertion order within a tie class (a row earlier in the
output has a strictly larger count, or an equal count and a strictly later
first-insertion position). -/
theorem C5_semicolon_sort_order (cells : List Cell) :
    (count_semicolon_list cells).Pairwise
      (fun a b => b.2 < a.2 ∨
        (b.2 = a.2 ∧
          (insertion_order cells).indexOf b.1 <
            (insertion_order cells).indexOf a.1)) := by
  unfold count_semicolon_list
  rw [List.pairwise_map, List.pairwise_reverse]
  have hnd : ((semiResults cells).map (fun p => p.1)).Nodup := by
    have h := buildCounts_keys_nodup (allTokens cells)
    unfold keysOf at h
    exact h
  have h := insertionSort_rank_pairwise
    (fun k => lookupCount (semiResults cells) k)
    ((semiResults cells).map (fun p => p.1)) hnd
  unfold semiSortedKeys insertion_order
  exact h

/-! ### `get_freeform_text` (C3) -/

/-- C3 counterexample: on the claim's input `["hello", None, "", "world"]`
the output of `get_freeform_text` is not `["hello", "world"]` (pandas
`dropna` keeps the empty string: the actual output is
`["hello", "", "world"]`). -/
theorem C3_freeform_counterexample :
    get_freeform_text [some "hello", none, some "", some "world"] ≠
      ["hello", "world"] := by
  decide

/-- C3 (amended): the output of `get_freeform_text` is exactly the
subsequence of entries that are not absent (`None`/`NaN`), in the original
row order, with each retained entry's text unchanged; empty strings are
retained, so the input `["hello", None, "", "world"]` yields
`["hello", "", "world"]`. -/
theorem C3_freeform_extractor :
    (∀ cells : List Cell, get_freeform_text cells = cells.filterMap id)
    ∧ get_freeform_text [some "hello", none, some "", some "world"] =
        ["hello", "", "world"] := by
  constructor
  · intro cells
    induction cells with
    | nil => rfl
    | cons c rest ih =>
      cases c with
      | none => simp [get_freeform_text, List.filterMap_cons, ih]
      | some s => simp [get_freeform_text, List.filterMap_cons, ih]
  · decide

/-! ### Radio-group aggregation (C1, C7) -/

/-- The count of cells in the sub-question column `col` of `raw` that equal
the exact label `opt` — the spec-side notion of C1. -/
def colCount (raw : Table) (col opt : String) : Nat :=
  (raw.column col).countP (fun c => c == some opt)

lemma count_filterMap_id (series : List Cell) (v : String) :
    (series.filterMap id).count v = series.countP (fun c => c == some v) := by
  induction series with
  | nil => rfl
  | cons c rest ih =>
    cases c with
    | none =>
      rw [List.filterMap_cons, List.countP_cons]
      simpa using ih
    | some s =>
      rw [List.filterMap_cons, List.countP_cons]
      simp only [id]
      rw [List.count_cons, ih]
      by_cases hsv : s = v
      · simp [hsv]
      · simp [hsv]

lemma initOptions_go (options : List String) :
    ∀ acc : List (String × Nat), options.Nodup →
      (∀ o ∈ options, o ∉ acc.map (fun p => p.1)) →
      options.foldl
        (fun m opt =>
          if m.any (fun p => p.1 == opt) then
            m.map (fun p => if p.1 == opt then (p.1, 0) else p)
          else m ++ [(opt, 0)]) acc
      = acc ++ options.map (fun o => (o, 0)) := by
  induction options with
  | nil => intro acc _ _; simp
  | cons o rest ih =>
    intro acc hnd hdisj
    have hno : o ∉ acc.map (fun p => p.1) := hdisj o (List.mem_cons_self o rest)
    have hany : acc.any (fun p => p.1 == o) = false := by
      rw [← Bool.not_eq_true, any_key_iff]
      exact hno
    rw [List.foldl_cons, if_neg (by rw [hany] ; exact Bool.false_ne_true)]
    have hstep := ih (acc ++ [(o, 0)]) (List.nodup_cons.mp hnd).2 ?_
    · rw [hstep]
      simp
    · intro o' ho'
      rw [List.map_append, List.mem_append]
      rintro (h | h)
      · exact hdisj o' (List.mem_cons_of_mem o ho') h
      · simp only [List.map_cons, List.map_nil, List.mem_singleton] at h
        exact (List.nodup_cons.mp hnd).1 (h ▸ ho')

lemma initOptions_eq {options : List String} (hnd : options.Nodup) :
    initOptions options = options.map (fun o => (o, 0)) := by
  unfold initOptions
  rw [initOptions_go options [] hnd (by simp)]
  simp

/-- The value the `option_results` dict ends up holding at key `k` after the
`iterrows` loop has processed `df`, starting from default `d`. -/
def overrideVal (df : List (String × Nat)) (options : List String)
    (k : String) (d : Nat) : Nat :=
  df.foldl
    (fun acc row =>
      if options.contains row.1 && (row.1 == k) then row.2 else acc) d

lemma overrideVal_cons (row : String × Nat) (df : List (String × Nat))
    (options : List String) (k : String) (d : Nat) :
    overrideVal (row :: df) options k d =
      overrideVal df options k
        (if options.contains row.1 && (row.1 == k) then row.2 else d) :=
  rfl

lemma foldl_fillRow (options : List String) :
    ∀ (df : List (String × Nat)) (m : List (String × Nat)),
      df.foldl (fillRow options) m =
        m.map (fun p => (p.1, overrideVal df options p.1 p.2)) := by
  intro df
  induction df with
  | nil =>
    intro m
    show m = m.map (fun p => (p.1, p.2))
    simp
  | cons row df ih =>
    intro m
    rw [List.foldl_cons, ih (fillRow options m row)]
    unfold fillRow
    by_cases hc : options.contains row.1 = true
    · rw [if_pos hc, List.map_map]
      refine List.map_congr_left (fun p _ => ?_)
      by_cases hpk : p.1 = row.1
      · have hb : (p.1 == row.1) = true := by simp [hpk]
        have hb2 : (row.1 == p.1) = true := by simp [hpk]
        simp only [Function.comp_apply, hb, if_true, overrideVal_cons, hc,
          hb2, Bool.and_self, Bool.true_and]
      · have hb : (p.1 == row.1) = false := by simp [hpk]
        have hb2 : (row.1 == p.1) = false := by
          rw [beq_eq_false_iff_ne]
          exact fun h => hpk h.symm
        simp only [Function.comp_apply, hb, Bool.false_eq_true, if_false,
          overrideVal_cons, hc, hb2, Bool.and_false, Bool.true_and]
    · rw [if_neg hc]
      refine List.map_congr_left (fun p _ => ?_)
      rw [overrideVal_cons]
      have hcm : row.1 ∉ options := fun hm => hc (List.elem_iff.mpr hm)
      simp [hcm]

lemma overrideVal_keyed (options : List String) (cnt : String → Nat)
    (o : String) (ho : o ∈ options) :
    ∀ (df : List (String × Nat)) (d : Nat),
      (∀ p ∈ df, p.2 = cnt p.1) →
      (df.map (fun p => p.1)).Nodup →
      overrideVal df options o d =
        if o ∈ df.map (fun p => p.1) then cnt o else d := by
  intro df
  induction df with
  | nil =>
    intro d _ _
    simp [overrideVal]
  | cons row df ih =>
    intro d hcnt hnd
    rw [overrideVal_cons]
    by_cases hk : row.1 = o
    · have hco : options.contains row.1 = true := by
        rw [hk]
        exact List.elem_iff.mpr ho
      have hb : (row.1 == o) = true := by simp [hk]
      rw [hco, hb]
      simp only [Bool.and_self, if_true]
      have hrow : row.2 = cnt o := by
        rw [hcnt row (List.mem_cons_self row df), hk]
      rw [hrow]
      rw [ih (cnt o) (fun p hp => hcnt p (List.mem_cons_of_mem row hp))
        (List.nodup_cons.mp hnd).2]
      have hmo : o ∈ (row :: df).map (fun p => p.1) := by
        rw [List.map_cons]
        exact List.mem_cons.mpr (Or.inl hk.symm)
      rw [ite_self, if_pos hmo]
    · have hb : (row.1 == o) = false := beq_eq_false_iff_ne.mpr hk
      rw [hb]
      simp only [Bool.and_false, Bool.false_eq_true, if_false]
      rw [ih d (fun p hp => hcnt p (List.mem_cons_of_mem row hp))
        (List.nodup_cons.mp hnd).2]
      by_cases hmem : o ∈ df.map (fun p => p.1)
      · rw [if_pos hmem,
          if_pos (by rw [List.map_cons]; exact List.mem_cons_of_mem _ hmem)]
      · rw [if_neg hmem, if_neg ?_]
        rw [List.map_cons]
        intro hx
        rcases List.mem_cons.mp hx with h' | h'
        · exact hk h'.symm
        · exact hmem h'

lemma row_counts (series : List Cell) (options : List String)
    (hnd : options.Nodup) :
    ((count_the_values series).foldl (fillRow options)
        (initOptions options)).map (fun p => p.2)
      = options.map (fun o => (series.filterMap id).count o) := by
  rw [foldl_fillRow, initOptions_eq hnd, List.map_map, List.map_map]
  refine List.map_congr_left (fun o ho => ?_)
  have hspec := count_the_values_spec series
  have h := overrideVal_keyed options
    (fun v => (series.filterMap id).count v) o ho
    (count_the_values series) 0 (fun p hp => hspec.2.1 p hp) hspec.1
  show overrideVal (count_the_values series) options o 0 =
    (series.filterMap id).count o
  rw [h]
  by_cases hmem : o ∈ (count_the_values series).map (fun p => p.1)
  · rw [if_pos hmem]
  · rw [if_neg hmem]
    have hno : o ∉ series.filterMap id :=
      fun hf => hmem ((hspec.2.2 o).mpr hf)
    rw [List.count_eq_zero.mpr hno]

lemma qr_foldlM (raw : Table) :
    ∀ (cols : List String) (acc : List (String × List (String × Nat))),
      cols.Nodup →
      (∀ c ∈ cols, raw.header.contains c = true) →
      (∀ c ∈ cols, c ∉ acc.map (fun p => p.1)) →
      List.foldlM (qrStep raw) acc cols
        = pure (acc ++ cols.map (fun col =>
            (col, count_the_values (raw.column col)))) := by
  intro cols
  induction cols with
  | nil =>
    intro acc _ _ _
    simp
  | cons col rest ih =>
    intro acc hnd hcols hdisj
    have hcol : raw.col col = some (raw.column col) := by
      unfold Table.col
      rw [if_pos (hcols col (List.mem_cons_self col rest))]
    have hany : acc.any (fun p => p.1 == col) = false := by
      rw [← Bool.not_eq_true, any_key_iff]
      exact hdisj col (List.mem_cons_self col rest)
    have hstep : qrStep raw acc col =
        pure (acc ++ [(col, count_the_values (raw.column col))]) := by
      unfold qrStep
      rw [hcol]
      simp only [hany]
      simp
    have hdisj' : ∀ c ∈ rest,
        c ∉ (acc ++ [(col, count_the_values (raw.column col))]).map
          (fun p => p.1) := by
      intro c hcmem
      rw [List.map_append, List.mem_append]
      rintro (hmem | hmem)
      · exact hdisj c (List.mem_cons_of_mem col hcmem) hmem
      · simp only [List.map_cons, List.map_nil, List.mem_singleton] at hmem
        exact (List.nodup_cons.mp hnd).1 (hmem ▸ hcmem)
    rw [List.foldlM_cons, hstep, pure_bind,
      ih (acc ++ [(col, count_the_values (raw.column col))])
        (List.nodup_cons.mp hnd).2
        (fun c hc => hcols c (List.mem_cons_of_mem col hc)) hdisj']
    simp

/-- The normal form of the radio-group aggregator on distinct sub-question
columns that all exist in the table: one output row per sub-question column
in declared order, holding for every allowed option (in declared order) the
number of cells of that column equal to that exact label, 0 when absent. -/
lemma count_responses_ok (raw : Table) (cols options : List String)
    (hndc : cols.Nodup) (hndo : options.Nodup)
    (hcols : ∀ c ∈ cols, raw.header.contains c = true) :
    count_responses_to_multi_entry_question raw cols options =
      Except.ok (cols.map (fun col =>
        (col, options.map (fun o => colCount raw col o)))) := by
  unfold count_responses_to_multi_entry_question
  rw [qr_foldlM raw cols [] hndc hcols (by simp), pure_bind,
    List.nil_append, List.map_map]
  refine congrArg Except.ok (List.map_congr_left (fun col hc => ?_))
  show (col, ((count_the_values (raw.column col)).foldl (fillRow options)
    (initOptions options)).map (fun p => p.2)) =
    (col, options.map (fun o => colCount raw col o))
  rw [row_counts (raw.column col) options hndo]
  refine congrArg (fun l => (col, l)) (List.map_congr_left (fun o _ => ?_))
  rw [count_filterMap_id]
  rfl

/-- C1: Radio-Group Aggregator zero-fill: for every raw table, list of
distinct sub-question columns present in the table, and list of distinct
allowed option labels, the aggregator returns one row per sub-question
column in declared order, holding for every allowed label in declared order
the count of cells in that column equal to that exact label, and 0 when the
label was never observed. -/
theorem C1_radio_group_zero_fill (raw : Table) (cols options : List String)
    (hndc : cols.Nodup) (hndo : options.Nodup)
    (hcols : ∀ c ∈ cols, raw.header.contains c = true) :
    count_responses_to_multi_entry_question raw cols options =
      Except.ok (cols.map (fun col =>
        (col, options.map (fun o => colCount raw col o)))) :=
  count_responses_ok raw cols options hndc hndo hcols

/-- A witness for C1 at the spec's example: sub-questions `["Q1", "Q2"]`,
options `["Low", "High"]`, Q1 = `["Low", "Low", "High"]`,
Q2 = `["High", "High", absent]`; the output rows are `("Q1", 2, 1)` and
`("Q2", 0, 2)` — zero-fill for the unobserved "Low" in Q2. -/
theorem C1_radio_group_zero_fill_witness :
    (["Q1", "Q2"] : List String).Nodup
    ∧ (["Low", "High"] : List String).Nodup
    ∧ (∀ c ∈ (["Q1", "Q2"] : List String),
        (Table.mk ["Q1", "Q2"]
          [[some "Low", some "High"], [some "Low", some "High"],
            [some "High", none]]).header.contains c = true)
    ∧ count_responses_to_multi_entry_question
        (Table.mk ["Q1", "Q2"]
          [[some "Low", some "High"], [some "Low", some "High"],
            [some "High", none]])
        ["Q1", "Q2"] ["Low", "High"]
      = Except.ok [("Q1", [2, 1]), ("Q2", [0, 2])] :=
  ⟨by decide, by decide, by decide,
    (C1_radio_group_zero_fill
        (Table.mk ["Q1", "Q2"]
          [[some "Low", some "High"], [some "Low", some "High"],
            [some "High", none]])
        ["Q1", "Q2"] ["Low", "High"]
        (by decide) (by decide) (by decide)).trans
      (congrArg Except.ok (by decide))⟩

/-- The table `raw` with every cell value that matches no allowed option
label replaced by an absent value (absent cells stay absent). -/
def maskUnmatched (raw : Table) (options : List String) : Table :=
  ⟨raw.header, raw.rows.map (fun r => r.map (fun c =>
    match c with
    | none => none
    | some s => if options.contains s then some s else none))⟩

lemma getD_map_mask (f : Cell → Cell) (hf : f none = none)
    (r : List Cell) (i : Nat) :
    (r.map f).getD i none = f (r.getD i none) := by
  rw [List.getD_eq_getElem?_getD, List.getD_eq_getElem?_getD,
    List.getElem?_map]
  cases r[i]? with
  | none => simpa using hf.symm
  | some x => rfl

lemma colCount_mask (raw : Table) (options : List String) (col o : String)
    (ho : o ∈ options) :
    colCount (maskUnmatched raw options) col o = colCount raw col o := by
  unfold colCount maskUnmatched Table.column
  simp only [List.map_map]
  rw [List.countP_map, List.countP_map]
  refine List.countP_congr (fun r _ => ?_)
  simp only [Function.comp_apply]
  rw [getD_map_mask _ rfl]
  cases hcell : r.getD (raw.header.indexOf col) none with
  | none => exact Iff.rfl
  | some s =>
    show ((if options.contains s then some s else none : Cell) == some o) =
        true ↔ (some s == some o) = true
    by_cases hcs : options.contains s = true
    · rw [if_pos hcs]
    · rw [if_neg hcs]
      have hso : s ≠ o := by
        intro he
        exact hcs (he ▸ List.elem_iff.mpr ho)
      have h1 : (some s == some o) = false := by
        rw [beq_eq_false_iff_ne]
        simp [hso]
      have h2 : ((none : Cell) == some o) = false := rfl
      rw [h1, h2]

/-- C7: Radio-Group Aggregator unmatched values: on distinct sub-question
columns present in the table and distinct option labels, the aggregator
never raises an error (it returns a result), and an observed value that
matches no declared allowed label is counted in no output cell: replacing
every unmatched value by an absent value leaves the output unchanged. -/
theorem C7_radio_group_unmatched (raw : Table) (cols options : List String)
    (hndc : cols.Nodup) (hndo : options.Nodup)
    (hcols : ∀ c ∈ cols, raw.header.contains c = true) :
    (∃ out, count_responses_to_multi_entry_question raw cols options =
      Except.ok out)
    ∧ count_responses_to_multi_entry_question raw cols options
      = count_responses_to_multi_entry_question (maskUnmatched raw options)
          cols options := by
  constructor
  · exact ⟨_, count_responses_ok raw cols options hndc hndo hcols⟩
  · rw [count_responses_ok raw cols options hndc hndo hcols,
      count_responses_ok (maskUnmatched raw options) cols options hndc hndo
        (fun c hc => hcols c hc)]
    refine congrArg Except.ok (List.map_congr_left (fun col hc => ?_))
    refine congrArg (fun l => (col, l))
      (List.map_congr_left (fun o ho => ?_))
    exact (colCount_mask raw options col o ho).symm

/-- A witness for C7: a table whose only sub-question column contains the
value "Weird", matching no allowed label; the aggregator returns a result
and that result equals the one from the table with "Weird" masked out. -/
theorem C7_radio_group_unmatched_witness :
    (∃ out, count_responses_to_multi_entry_question
        (Table.mk ["Q1"] [[some "Weird"], [some "Low"]]) ["Q1"]
        ["Low", "High"] = Except.ok out)
    ∧ count_responses_to_multi_entry_question
        (Table.mk ["Q1"] [[some "Weird"], [some "Low"]]) ["Q1"]
        ["Low", "High"]
      = count_responses_to_multi_entry_question
          (maskUnmatched (Table.mk ["Q1"] [[some "Weird"], [some "Low"]])
            ["Low", "High"])
          ["Q1"] ["Low", "High"] :=
  C7_radio_group_unmatched (Table.mk ["Q1"] [[some "Weird"], [some "Low"]])
    ["Q1"] ["Low", "High"] (by decide) (by decide) (by decide)

/-- C2: schema mismatch is fatal: whenever the input table's column count
differs from the schema list's length, `crunch_raw_data` returns the
structural error (pandas' `ValueError: Length mismatch` raised by the
`df.columns = survey_form` assignment) before any aggregation, and no
Crunched Result is produced. -/
theorem C2_schema_mismatch_fatal (t : Table)
    (h : t.header.length ≠ survey_form.length) :
    crunch_raw_data t = Except.error "Length mismatch" := by
  unfold crunch_raw_data
  rw [if_pos h]

/-- A witness for C2: a 28-column table against the 29-column schema is
rejected with the structural error. -/
theorem C2_schema_mismatch_fatal_witness :
    (Table.mk (List.replicate 28 "c") []).header.length ≠ survey_form.length
    ∧ crunch_raw_data (Table.mk (List.replicate 28 "c") []) =
        Except.error "Length mismatch" :=
  ⟨by decide, C2_schema_mismatch_fatal (Table.mk (List.replicate 28 "c") [])
    (by decide)⟩

/-! ### The place filter (C9).

The place filter described in the specification is not present in `src/`:
the `crunch_raw_data` there takes no filter argument.  The definitions
`strContains`, `apply_place_filter` and `crunch_raw_data_with_place` below
are therefore modelled from the specification's words. -/

/-- Modelled from the spec: "case-sensitive substring containment" — the
Python expression `place in s` — as infix containment of character lists. -/
def strContains (s pat : String) : Bool :=
  decide (List.IsInfix pat.data s.data)

/-- The serving-area cell of a renamed row: the value at the position the
schema gives to the column "Where do you serve?: (check all that apply)". -/
def serving_cell (r : List Cell) : Cell :=
  r.getD (survey_form.indexOf "Where do you serve?: (check all that apply)")
    none

/-- Modelled from the spec: the optional place filter of section 4.5, which
is missing from `src/`.  "Rows are restricted to those whose value in a
designated serving area column contains the filter substring (case-sensitive
substring containment), with absent values in that column treated as a
literal placeholder string (`no response provided`) before filtering." -/
def apply_place_filter (df : Table) (place : String) : Table :=
  ⟨df.header, df.rows.filter (fun r =>
    strContains
      ((r.getD (df.header.indexOf
          "Where do you serve?: (check all that apply)") none).getD
        "no response provided")
      place)⟩

/-- Modelled from the spec: the orchestrator with the optional place filter
of section 4.5 (missing from `src/`): schema-length check, positional header
overwrite, then the optional row restriction before any aggregation. -/
def crunch_raw_data_with_place (t : Table) (place : Option String) :
    Except String Crunched :=
  if t.header.length ≠ survey_form.length then
    Except.error "Length mismatch"
  else
    match place with
    | none => aggregate_renamed ⟨survey_form, t.rows⟩
    | some p => aggregate_renamed (apply_place_filter ⟨survey_form, t.rows⟩ p)

lemma mapM_ok {α β : Type} (f : α → Except String β) (g : α → β) :
    ∀ l : List α, (∀ x ∈ l, f x = pure (g x)) →
      l.mapM f = pure (l.map g) := by
  intro l
  induction l with
  | nil => intro _; rfl
  | cons a l ih =>
    intro h
    rw [List.mapM_cons, h a (List.mem_cons_self a l),
      ih (fun x hx => h x (List.mem_cons_of_mem a hx)), pure_bind, pure_bind]
    rfl

lemma colStep_ok {β : Type} (f : List Cell → β) (rows : List (List Cell))
    (col : String) (hc : survey_form.contains col = true) :
    colStep f ⟨survey_form, rows⟩ col =
      pure (col, f (Table.column ⟨survey_form, rows⟩ col)) := by
  unfold colStep Table.col
  rw [if_pos hc]

set_option maxRecDepth 4096 in
/-- On a table whose header is the schema list, every aggregation loop
succeeds: the orchestrator never errors after the schema check passes. -/
lemma aggregate_renamed_ok (rows : List (List Cell)) :
    ∃ c, aggregate_renamed ⟨survey_form, rows⟩ = Except.ok c := by
  have hyn : ∀ c ∈ yes_no, survey_form.contains c = true := by decide
  have hsc : ∀ c ∈ semicolon_lists, survey_form.contains c = true := by
    decide
  have hff : ∀ c ∈ freeform_text, survey_form.contains c = true := by decide
  have hq : ∀ q ∈ questions, q.2.1.Nodup ∧ q.2.2.Nodup ∧
      ∀ c ∈ q.2.1, survey_form.contains c = true := by decide
  have h1 := mapM_ok (colStep count_the_values ⟨survey_form, rows⟩)
    (fun col => (col, count_the_values (Table.column ⟨survey_form, rows⟩ col)))
    yes_no (fun col hc => colStep_ok _ rows col (hyn col hc))
  have h2 := mapM_ok (colStep count_semicolon_list ⟨survey_form, rows⟩)
    (fun col =>
      (col, count_semicolon_list (Table.column ⟨survey_form, rows⟩ col)))
    semicolon_lists (fun col hc => colStep_ok _ rows col (hsc col hc))
  have h3 := mapM_ok (colStep get_freeform_text ⟨survey_form, rows⟩)
    (fun col => (col, get_freeform_text (Table.column ⟨survey_form, rows⟩ col)))
    freeform_text (fun col hc => colStep_ok _ rows col (hff col hc))
  have h4 := mapM_ok
    (fun q =>
      (count_responses_to_multi_entry_question ⟨survey_form, rows⟩
        q.2.1 q.2.2).map (fun t => (q.1, t)))
    (fun q => (q.1, q.2.1.map (fun col =>
      (col, q.2.2.map (fun o => colCount ⟨survey_form, rows⟩ col o)))))
    questions
    (fun q hqm => by
      show Except.map (fun t => (q.1, t))
        (count_responses_to_multi_entry_question ⟨survey_form, rows⟩
          q.2.1 q.2.2)
        = pure (q.1, q.2.1.map (fun col =>
            (col, q.2.2.map (fun o => colCount ⟨survey_form, rows⟩ col o))))
      rw [count_responses_ok ⟨survey_form, rows⟩ q.2.1 q.2.2
        (hq q hqm).1 (hq q hqm).2.1
        (fun c hc => (hq q hqm).2.2 c hc)]
      rfl)
  unfold aggregate_renamed
  rw [h1, pure_bind, h2, pure_bind, h3, pure_bind, h4, pure_bind]
  exact ⟨_, rfl⟩

/-- C9 (spec-modelled): with a place-filter substring, aggregation runs on
exactly the rows whose serving-area value — with absent values replaced by
the placeholder "no response provided" — contains the substring
(case-sensitive); the crunch never errors once the schema check passes (so
absent serving-area rows never cause a crash), and a row with an absent
serving-area value is kept if and only if the placeholder itself contains
the filter substring. -/
theorem C9_place_filter (t : Table) (place : String)
    (h : t.header.length = survey_form.length) :
    crunch_raw_data_with_place t (some place)
      = aggregate_renamed ⟨survey_form, t.rows.filter (fun r =>
          strContains ((serving_cell r).getD "no response provided") place)⟩
    ∧ (∃ c, crunch_raw_data_with_place t (some place) = Except.ok c)
    ∧ ∀ r ∈ t.rows, serving_cell r = none →
        (r ∈ (apply_place_filter ⟨survey_form, t.rows⟩ place).rows ↔
          strContains "no response provided" place = true) := by
  have h0 : crunch_raw_data_with_place t (some place)
      = aggregate_renamed (apply_place_filter ⟨survey_form, t.rows⟩ place) := by
    unfold crunch_raw_data_with_place
    rw [if_neg (not_not_intro h)]
  refine ⟨?_, ?_, ?_⟩
  · rw [h0]
    rfl
  · rw [h0]
    exact aggregate_renamed_ok _
  · intro r hr hserve
    unfold apply_place_filter
    simp only [List.mem_filter]
    have hcell : r.getD (survey_form.indexOf
        "Where do you serve?: (check all that apply)") none = none := hserve
    constructor
    · rintro ⟨_, hp⟩
      rw [hcell] at hp
      exact hp
    · intro hp
      refine ⟨hr, ?_⟩
      rw [hcell]
      exact hp

/-- A witness for C9 at a table with the schema header and no data rows and
the filter substring "Philadelphia". -/
theorem C9_place_filter_witness :
    (crunch_raw_data_with_place (Table.mk survey_form [])
        (some "Philadelphia")
      = aggregate_renamed ⟨survey_form,
          (Table.mk survey_form []).rows.filter (fun r =>
            strContains ((serving_cell r).getD "no response provided")
              "Philadelphia")⟩)
    ∧ (∃ c, crunch_raw_data_with_place (Table.mk survey_form [])
        (some "Philadelphia") = Except.ok c)
    ∧ ∀ r ∈ (Table.mk survey_form []).rows, serving_cell r = none →
        (r ∈ (apply_place_filter
            ⟨survey_form, (Table.mk survey_form []).rows⟩
            "Philadelphia").rows ↔
          strContains "no response provided" "Philadelphia" = true) :=
  C9_place_filter (Table.mk survey_form []) "Philadelphia" rfl

/-- A witness for C3: the general characterization applied at the concrete
input `["hello", None, "", "world"]`. -/
theorem C3_freeform_extractor_witness :
    get_freeform_text [some "hello", none, some "", some "world"] =
      ([some "hello", none, some "", some "world"] : List Cell).filterMap
        id :=
  C3_freeform_extractor.1 [some "hello", none, some "", some "world"]

/-- A witness for C5: the ordering property at the concrete input
`["a;b", "a", None, "b;c"]` (output `[("b", 2), ("a", 2), ("c", 1)]`: ties
between "a" and "b" are listed in reverse insertion order). -/
theorem C5_semicolon_sort_order_witness :
    (count_semicolon_list [some "a;b", some "a", none, some "b;c"]).Pairwise
      (fun a b => b.2 < a.2 ∨
        (b.2 = a.2 ∧
          (insertion_order [some "a;b", some "a", none,
            some "b;c"]).indexOf b.1 <
            (insertion_order [some "a;b", some "a", none,
              some "b;c"]).indexOf a.1))
    ∧ count_semicolon_list [some "a;b", some "a", none, some "b;c"] =
        [("b", 2), ("a", 2), ("c", 1)] :=
  ⟨C5_semicolon_sort_order [some "a;b", some "a", none, some "b;c"],
   by decide⟩

/-- A witness for C6 at the concrete input `["Yes", "No", None, "Yes"]`. -/
theorem C6_value_counter_conservation_witness :
    ((count_the_values [some "Yes", some "No", none, some "Yes"]).map
        (fun p => p.2)).sum =
      (([some "Yes", some "No", none, some "Yes"] : List Cell).filterMap
        id).length
    ∧ count_the_values [some "Yes", some "No", none, some "Yes"] =
        [("Yes", 2), ("No", 1)] :=
  ⟨(C6_value_counter_conservation
      [some "Yes", some "No", none, some "Yes"]).1,
   by decide⟩

/-- A witness for C10 at the concrete input `["b", "a", "b", None]`. -/
theorem C10_value_counter_descending_witness :
    (count_the_values [some "b", some "a", some "b", none]).Pairwise
      (fun a b => b.2 ≤ a.2)
    ∧ count_the_values [some "b", some "a", some "b", none] =
        [("b", 2), ("a", 1)] :=
  ⟨C10_value_counter_descending [some "b", some "a", some "b", none],
   by decide⟩
